import Mathlib

/-!
Shallow embedding of the data-transformation core of `src/pages/4_Film_Analysis.py`
(a pandas pipeline: literal-list parsing, explode, groupby with count/mean/sum,
sort_values/head ranking, unstack/melt reshaping, year-range filtering,
seeded sub-sampling).  Tables are lists of `Row` records; missing numeric
values (NaN cells) are `Option` `none`; the multi-valued `genres`/`country`
columns are lists of strings after normalization.
-/

namespace FilmAnalysis

/-- One raw cell of a string-encoded list column, before normalization:
either a string (as read from the CSV) or a missing value (NaN, which pandas
produces for empty cells; `isinstance(x, str)` is false for it). -/
inductive Cell where
  | str (s : String)
  | na
deriving DecidableEq

/-- The single-quote character, by code point (39). -/
def sqChar : Char := Char.ofNat 39

/-- The double-quote character, by code point (34). -/
def dqChar : Char := Char.ofNat 34

/-- Drop leading spaces, as Python literal parsing tolerates whitespace. -/
def skipWs : List Char → List Char
  | c :: cs => if c = ' ' then skipWs cs else c :: cs
  | [] => []

/-- Scan the characters of a quoted string literal up to the closing quote
`q`; returns the decoded string and the remaining input, or `none` if the
quote is never closed.  (Escape sequences are not modelled; the repository's
data never needs them.) -/
def takeStr (q : Char) : List Char → Option (String × List Char)
  | [] => none
  | c :: cs =>
    if c = q then some ("", cs)
    else (takeStr q cs).map fun p => (String.mk (c :: p.1.data), p.2)

/-- A parsed Python literal value, covering the fragment of literals the
catalog's string-encoded cells can contain: quoted strings, integers, simple
decimal floats, booleans, `None`, and nested list/tuple literals. -/
inductive PyLit where
  | str (s : String)
  | int (n : Int)
  | float (q : ℚ)
  | bool (b : Bool)
  | pynone
  | list (xs : List PyLit)
  | tuple (xs : List PyLit)

/-- Split off a maximal run of decimal digits. -/
def takeDigits : List Char → (List Char × List Char)
  | [] => ([], [])
  | c :: cs =>
    if c.isDigit then
      let p := takeDigits cs
      (c :: p.1, p.2)
    else ([], c :: cs)

/-- The natural number a digit run denotes. -/
def digitsToNat (ds : List Char) : Nat :=
  ds.foldl (fun acc c => acc * 10 + (c.toNat - 48)) 0

/-- Strip an expected leading character sequence, or fail. -/
def startsWith : List Char → List Char → Option (List Char)
  | [], rest => some rest
  | _ :: _, [] => Option.none
  | p :: ps, c :: cs => if c = p then startsWith ps cs else Option.none

/-- Parse the keyword literals `True`, `False`, `None`. -/
def parseKeyword (cs : List Char) : Option (PyLit × List Char) :=
  match startsWith ['T', 'r', 'u', 'e'] cs with
  | some r => some (PyLit.bool true, r)
  | Option.none =>
    match startsWith ['F', 'a', 'l', 's', 'e'] cs with
    | some r => some (PyLit.bool false, r)
    | Option.none =>
      match startsWith ['N', 'o', 'n', 'e'] cs with
      | some r => some (PyLit.pynone, r)
      | Option.none => Option.none

/-- Parse a number literal (digits, optionally followed by a decimal point
and more digits), with the sign already consumed. -/
def parseNumFrom (neg : Bool) (cs : List Char) : Option (PyLit × List Char) :=
  let p := takeDigits cs
  if p.1.isEmpty then Option.none
  else
    match p.2 with
    | '.' :: rest2 =>
      let f := takeDigits rest2
      let q : ℚ := (digitsToNat p.1 : ℚ) + (digitsToNat f.1 : ℚ) / ((10 : ℚ) ^ f.1.length)
      some (PyLit.float (if neg then -q else q), f.2)
    | rest =>
      let n : Int := Int.ofNat (digitsToNat p.1)
      some (PyLit.int (if neg then -n else n), rest)

mutual

/-- Recursive-descent parser for one literal of the modelled fragment;
`fuel` bounds the recursion and the caller passes more than the input
length.  Returns the value and the remaining input. -/
def parseLit : Nat → List Char → Option (PyLit × List Char)
  | 0, _ => Option.none
  | fuel + 1, cs0 =>
    match skipWs cs0 with
    | [] => Option.none
    | c :: rest =>
      if c = sqChar ∨ c = dqChar then
        (takeStr c rest).map fun p => (PyLit.str p.1, p.2)
      else if c = '[' then
        (parseSeq fuel ']' rest).map fun p => (PyLit.list p.1, p.2)
      else if c = '(' then
        (parseSeq fuel ')' rest).map fun p => (PyLit.tuple p.1, p.2)
      else if c = '-' then parseNumFrom true rest
      else if c.isDigit then parseNumFrom false (c :: rest)
      else parseKeyword (c :: rest)

/-- Parse the possibly empty, comma-separated (trailing comma allowed)
elements of a bracketed literal up to the closing character. -/
def parseSeq : Nat → Char → List Char → Option (List PyLit × List Char)
  | 0, _, _ => Option.none
  | fuel + 1, close, cs0 =>
    match skipWs cs0 with
    | [] => Option.none
    | c :: rest =>
      if c = close then some ([], rest)
      else
        match parseLit fuel (c :: rest) with
        | Option.none => Option.none
        | some (v, rest2) =>
          match skipWs rest2 with
          | c2 :: rest3 =>
            if c2 = ',' then
              (parseSeq fuel close rest3).map fun p => (v :: p.1, p.2)
            else if c2 = close then some ([v], rest3)
            else Option.none
          | [] => Option.none

end

/-- Model of `ast.literal_eval` over the literal fragment the repository's
data can contain: quoted strings (single- or double-quoted, no escape
sequences), integers, simple decimal floats, `True`/`False`/`None`, and
nested list/tuple literals; dicts, sets, complex numbers, scientific
notation and string escapes lie outside the modelled fragment.  A string the
grammar rejects raises `ValueError("malformed node or string")`, modelled as
`Except.error`; any accepted literal — a list of strings or not — is
returned as its value. -/
def literal_eval (s : String) : Except String PyLit :=
  match parseLit (2 * s.length + 2) s.data with
  | some (v, rest) =>
    match skipWs rest with
    | [] => Except.ok v
    | _ => Except.error "malformed node or string"
  | Option.none => Except.error "malformed node or string"

/-- The per-cell lambda of lines 30-31:
`ast.literal_eval(x) if isinstance(x, str) else []`.  A non-string cell
becomes the empty Python list. -/
def parseCell (c : Cell) : Except String PyLit :=
  match c with
  | Cell.str s => literal_eval s
  | Cell.na => Except.ok (PyLit.list [])

/-- Lines 30-31: `column.apply(lambda x: ast.literal_eval(x) if isinstance(x, str) else [])`.
`Series.apply` maps the lambda over the cells in order; an exception raised
on any cell aborts the whole call and propagates to the caller — hence the
`Except` result for the column, stopping at the first bad cell. -/
def parse_list_column : List Cell → Except String (List PyLit)
  | [] => Except.ok []
  | c :: cs =>
    match parseCell c, parse_list_column cs with
    | Except.error e, _ => Except.error e
    | Except.ok _, Except.error e => Except.error e
    | Except.ok v, Except.ok rest => Except.ok (v :: rest)

/-- The value a cell normalizes to when no exception occurs. -/
def evalCell (c : Cell) : PyLit :=
  match c with
  | Cell.na => PyLit.list []
  | Cell.str s =>
    match literal_eval s with
    | Except.ok v => v
    | Except.error _ => PyLit.list []

/-- Whether a cell parses without raising. -/
def validCell (c : Cell) : Bool :=
  match c with
  | Cell.na => true
  | Cell.str s => (literal_eval s).isOk

/-- One record of the normalized catalog table (the columns the analyses
use).  Numeric columns are nullable because pandas holds them as floats with
NaN for missing data. -/
structure Row where
  title : String
  rtype : String
  release_year : Int
  runtime : Option ℚ
  imdb_score : Option ℚ
  imdb_votes : Option ℚ
  genres : List String
  country : List String
deriving DecidableEq

/-- Convenience constructor for rows where only year/genres matter. -/
def mkRow (t : String) (y : Int) (gs : List String) : Row :=
  ⟨t, "MOVIE", y, none, none, none, gs, []⟩

/-- Model of `DataFrame.explode('genres')` on one record: one row per list
element, but a record whose list is empty yields a single row whose exploded
cell is NaN (`none`) — pandas explode never drops a record. -/
def expandRecord (r : Row) : List (Row × Option String) :=
  if r.genres.isEmpty then [(r, none)]
  else r.genres.map fun v => (r, some v)

/-- Model of `df.explode('genres')` over the whole table. -/
def explodeGenres (df : List Row) : List (Row × Option String) :=
  df.flatMap expandRecord

/-- Remove duplicates keeping the first occurrence of each element
(tail-recursive over the input, accumulating the elements already seen). -/
def dedupFirstAux [DecidableEq α] (seen : List α) : List α → List α
  | [] => []
  | x :: xs =>
    if x ∈ seen then dedupFirstAux seen xs
    else x :: dedupFirstAux (x :: seen) xs

/-- Remove duplicates keeping first occurrences. -/
def dedupFirst [DecidableEq α] (l : List α) : List α :=
  dedupFirstAux [] l

/-- Lexicographic comparison of char lists by code point, the order Python
uses on strings and pandas uses to sort string group keys. -/
def charListLe : List Char → List Char → Bool
  | [], _ => true
  | _ :: _, [] => false
  | a :: as, b :: bs =>
    if a < b then true
    else if a = b then charListLe as bs
    else false

/-- String comparison by code points. -/
def strLe (a b : String) : Bool :=
  charListLe a.data b.data

/-- The string order as a relation, for `List.insertionSort`. -/
def strLeR : String → String → Prop := fun a b => strLe a b = true

instance : DecidableRel strLeR := fun a b =>
  inferInstanceAs (Decidable (strLe a b = true))

/-- Lexicographic order on (decade, genre) pairs, the order
`groupby(['decade', 'genres'])` sorts its keys in. -/
def pairLeR : (Int × String) → (Int × String) → Prop := fun a b =>
  (decide (a.1 < b.1) || (decide (a.1 = b.1) && strLe a.2 b.2)) = true

instance : DecidableRel pairLeR := fun a b =>
  inferInstanceAs
    (Decidable ((decide (a.1 < b.1) || (decide (a.1 = b.1) && strLe a.2 b.2)) = true))

/-- Model of `groupby(keys).size()` over a list of key cells: one entry per
distinct key, keys sorted ascending (pandas groupby defaults to
`sort=True`), each paired with its number of occurrences.  NaN keys are
dropped by the caller before this point (`dropna=True` is the groupby
default). -/
def groupbySizeBy {K : Type} [DecidableEq K] (r : K → K → Prop) [DecidableRel r]
    (ks : List K) : List (K × Nat) :=
  (List.insertionSort r (dedupFirst ks)).map fun k => (k, ks.count k)

/-- The sorted distinct genre keys of a set of exploded rows; rows whose
exploded cell is NaN are dropped, as `groupby('genres')` does. -/
def groupKeys (rows : List (Row × Option String)) : List String :=
  List.insertionSort strLeR (dedupFirst (rows.filterMap Prod.snd))

/-- The records of one genre group among exploded rows. -/
def groupRows (rows : List (Row × Option String)) (k : String) : List Row :=
  rows.filterMap fun p => if p.2 = some k then some p.1 else none

/-- Model of `groupby('genres')[field].sum()`: per sorted distinct key, the
sum of the present (non-NaN) values of `f`; a group with no present value
sums to `0` (pandas `sum` defaults to `min_count=0`). -/
def groupbySum (rows : List (Row × Option String)) (f : Row → Option ℚ) :
    List (String × ℚ) :=
  (groupKeys rows).map fun k => (k, ((groupRows rows k).filterMap f).sum)

/-- Model of `groupby('genres')[field].mean()`: per sorted distinct key, the
mean of the present (non-NaN) values of `f`; a group with no present value
gets NaN (`none`) — the group stays in the output. -/
def groupbyMean (rows : List (Row × Option String)) (f : Row → Option ℚ) :
    List (String × Option ℚ) :=
  (groupKeys rows).map fun k =>
    let vs := (groupRows rows k).filterMap f
    (k, if vs.length = 0 then none else some (vs.sum / (vs.length : ℚ)))

/-- The present (non-NaN) values of `f` in genre group `g` — the rows a
null-safe mean or sum actually reduces over. -/
def eligibleVals (df : List Row) (g : String) (f : Row → Option ℚ) : List ℚ :=
  (groupRows (explodeGenres df) g).filterMap f

/-- Model of `Series.sort_values(ascending=False)`: pandas `nargsort` runs a
stable ascending sort of the values and then reverses the whole permutation,
so equal values end up in reverse of their input order. -/
def sortValuesDesc [LinearOrder β] (l : List (String × β)) : List (String × β) :=
  (List.insertionSort (fun p q => p.2 ≤ q.2) l).reverse

/-- Model of `Series.sort_values(ascending=False)` for a float column with
NaN (`none`) entries: the non-NaN block is sorted ascending and reversed,
then the NaN entries are appended last in input order (`na_position` defaults
to `'last'` and is applied after the reversal). -/
def sortValuesDescNa (l : List (String × Option ℚ)) : List (String × Option ℚ) :=
  ((List.insertionSort (fun p q : String × ℚ => p.2 ≤ q.2)
      (l.filterMap fun p => p.2.map fun v => (p.1, v))).reverse.map
    fun p => (p.1, some p.2))
  ++ l.filter fun p => p.2 = none

/-- Model of `DataFrame.head(n)` / `Series.head(n)`: for `n ≥ 0` the first
`n` rows; for negative `n`, pandas returns `self[:n]`, i.e. all rows except
the last `|n|`. -/
def pandasHead (n : Int) (l : List α) : List α :=
  if 0 ≤ n then l.take n.toNat
  else l.take (l.length - (-n).toNat)

/-- Line 211: `df.explode('genres').groupby('genres').size().sort_values(ascending=False)`. -/
def genre_counts (df : List Row) : List (String × Nat) :=
  sortValuesDesc (groupbySizeBy strLeR ((explodeGenres df).filterMap Prod.snd))

/-- Line 140: `(release_year // 10) * 10` — Python floor division. -/
def decade (r : Row) : Int :=
  (Int.fdiv r.release_year 10) * 10

/-- Lines 141-148 up to `.size()`: explode genres, then
`groupby(['decade', 'genres']).size()` — rows whose exploded genre is NaN are
dropped, pairs sorted lexicographically. -/
def genre_decade_sizes (df : List Row) : List ((Int × String) × Nat) :=
  groupbySizeBy pairLeR
    ((explodeGenres df).filterMap fun p => p.2.map fun g => (decade p.1, g))

/-- Lines 278-285: `df.explode('genres').groupby('genres')['imdb_score'].mean().sort_values(ascending=False).head(10)`. -/
def genre_imdb (df : List Row) : List (String × Option ℚ) :=
  pandasHead 10 (sortValuesDescNa (groupbyMean (explodeGenres df) Row.imdb_score))

/-- Lines 331-338: `df.explode('genres').groupby('genres')['imdb_votes'].sum().sort_values(ascending=False).head(10)`. -/
def genre_votes (df : List Row) : List (String × ℚ) :=
  pandasHead 10 (sortValuesDesc (groupbySum (explodeGenres df) Row.imdb_votes))

/-- A wide (pivoted) table: one row per `rowKeys` entry, one column per
`colKeys` entry, numeric cells in row-major order — the shape of
`...unstack().fillna(0).loc[top10_genres, top10_countries]` (lines 222-232). -/
structure Wide where
  rowKeys : List String
  colKeys : List String
  cells : List (List ℚ)
deriving DecidableEq

/-- The long-form block `melt` emits for one value column: the id column
value, the column name, and that column's cell of each row, in row order. -/
def meltCol (w : Wide) (j : Nat) (c : String) : List (String × String × ℚ) :=
  (w.rowKeys.zip w.cells).map fun grow => (grow.1, c, grow.2.getD j 0)

/-- Lines 238-242: `pivot.melt(id_vars='genres', ...)` — long form, one
triple per cell, blocks concatenated per value column in column order, each
block in row order. -/
def melt (w : Wide) : List (String × String × ℚ) :=
  w.colKeys.enum.flatMap fun jc => meltCol w jc.1 jc.2

/-- Look up the metric of a (row-key, column-key) pair in a long-form table:
the first matching triple, if any. -/
def findCell (long : List (String × String × ℚ)) (g c : String) : Option ℚ :=
  (long.find? fun t => t.1 == g && t.2.1 == c).map fun t => t.2.2

/-- Pivot a long-form aggregation to wide form over given row/column
allow-lists: the `unstack().fillna(0).loc[rows, cols]` shape — each cell is
the matching metric, and combinations absent from the data materialize
as `0`. -/
def unstackLoc (long : List (String × String × ℚ)) (rows cols : List String) : Wide :=
  ⟨rows, cols, rows.map fun g => cols.map fun c => (findCell long g c).getD 0⟩

/-- Lines 222-232 as a function of the exploded aggregation: group sizes per
(genre, country) pair turned into wide form over the two allow-lists. -/
def pivotTable (agg : List (String × String × ℚ)) (rows cols : List String) : Wide :=
  unstackLoc agg rows cols

/-- Lines 75-78: filter by inclusive year range, then
`dropna(subset=["runtime", "imdb_score"])`. -/
def df_plot (df : List Row) (lo hi : Int) : List Row :=
  (df.filter fun r => decide (lo ≤ r.release_year) && decide (r.release_year ≤ hi)).filter
    fun r => r.runtime.isSome && r.imdb_score.isSome

/-- Model of `Series.corr` (line 81), Pearson.  Returns `none` exactly when
pandas returns NaN: fewer than two paired observations, or a zero variance.
Since the correlation itself involves a square root, the defined value is
represented by its sufficient statistics (covariance sum, product of the two
variance sums), from which r = cov / sqrt(vx * vy). -/
def corrStats (ps : List (ℚ × ℚ)) : Option (ℚ × ℚ) :=
  if ps.length < 2 then none
  else
    let n : ℚ := ps.length
    let mx := (ps.map Prod.fst).sum / n
    let my := (ps.map Prod.snd).sum / n
    let vx := (ps.map fun p => (p.1 - mx) ^ 2).sum
    let vy := (ps.map fun p => (p.2 - my) ^ 2).sum
    if vx = 0 ∨ vy = 0 then none
    else some ((ps.map fun p => (p.1 - mx) * (p.2 - my)).sum, vx * vy)

/-- Lines 75-82: the data step of the "Runtime vs IMDb Score" analysis — the
filtered table and the correlation statistic computed on it.  Every
operation on this path is total on an empty filter result (pandas returns
NaN, not an error), so the orchestrator's empty-result value is the pair of
the empty table and `none`. -/
def runtimeScoreAnalysis (df : List Row) (lo hi : Int) :
    List Row × Option (ℚ × ℚ) :=
  let d := df_plot df lo hi
  (d, corrStats (d.filterMap fun r =>
    match r.runtime, r.imdb_score with
    | some a, some b => some (a, b)
    | _, _ => none))

/-- A 64-bit linear congruential step, standing in for NumPy's generator
state transition (the exact stream is irrelevant to the claims; what matters
is that it is a pure function of the state). -/
def lcg (s : Nat) : Nat :=
  (s * 6364136223846793005 + 1442695040888963407) % (2 ^ 64)

/-- Draw `fuel` elements without replacement, each chosen by the current
generator state; pure in the initial state. -/
def sampleAux (fuel : Nat) (s : Nat) (l : List α) : List α :=
  match fuel, l with
  | 0, _ => []
  | _, [] => []
  | n + 1, x :: xs =>
    let i := s % (xs.length + 1)
    (x :: xs).getD i x :: sampleAux n (lcg s) ((x :: xs).eraseIdx i)

/-- Model of `DataFrame.sample(n, random_state=...)`: when `random_state` is
given, the generator is seeded from it alone; when it is `None`, pandas
draws from the ambient global NumPy generator state, so the result depends
on the process history. -/
def pandasSample (ambientState : Nat) (randomState : Option Nat) (n : Nat)
    (l : List α) : List α :=
  match randomState with
  | some seed => sampleAux n (lcg seed) l
  | none => sampleAux n (lcg ambientState) l

/-- Line 137: `df_filtered.sample(min(len(df_filtered), 5000), random_state=42)`.
`ambientState` models the global RNG state at call time. -/
def sampleStep (ambientState : Nat) (df : List Row) : List Row :=
  pandasSample ambientState (some 42) (min df.length 5000) df

/-- The spec's three-record scenario input: genres
`[["Drama"], ["Drama", "Comedy"], []]`. -/
def exDf3 : List Row :=
  [mkRow "a" 2000 ["Drama"], mkRow "b" 2001 ["Drama", "Comedy"], mkRow "c" 2002 []]

/-- Input with one record whose genre list is empty. -/
def dfEmptyG : List Row :=
  [mkRow "e" 1995 []]

/-- Input whose years (1990-2022) lie entirely outside the 1900-1905 query
window. -/
def dfYears : List Row :=
  [mkRow "x" 1990 ["Drama"], mkRow "y" 2022 []]

/-- Input with one genre and no votes data. -/
def dfNoVotes : List Row :=
  [mkRow "v" 2000 ["G"]]

/-- Input with a record carrying a genre value and a record with an empty
genre list. -/
def dfMixed : List Row :=
  [mkRow "a" 2000 ["Drama"], mkRow "e" 2001 []]

/-- Convenience constructor for rows where only genres and score matter. -/
def mkRowS (t : String) (gs : List String) (sc : Option ℚ) : Row :=
  ⟨t, "MOVIE", 2000, none, sc, none, gs, []⟩

/-- Input whose only genre group has no score data at all. -/
def dfMeanNa : List Row :=
  [mkRowS "b" ["B"] none]

/-- Input with one genre group of 5 rows, 2 of which are missing the score. -/
def dfMean5 : List Row :=
  [mkRowS "a" ["G"] (some 2), mkRowS "b" ["G"] (some 3), mkRowS "c" ["G"] (some 4),
   mkRowS "d" ["G"] none, mkRowS "e" ["G"] none]

instance : IsTotal (String × ℚ) (fun p q => p.2 ≤ q.2) :=
  ⟨fun a b => le_total a.2 b.2⟩

instance : IsTrans (String × ℚ) (fun p q => p.2 ≤ q.2) :=
  ⟨fun _ _ _ h1 h2 => le_trans h1 h2⟩

end FilmAnalysis

namespace FilmAnalysis


/-! ### Helper lemmas -/

theorem mem_dedupFirstAux [DecidableEq α] {a : α} :
    ∀ {seen : List α} {l : List α}, a ∈ dedupFirstAux seen l ↔ a ∈ l ∧ a ∉ seen := by
  intro seen l
  induction l generalizing seen with
  | nil => simp [dedupFirstAux]
  | cons x xs ih =>
    by_cases hx : x ∈ seen
    · simp only [dedupFirstAux, if_pos hx, ih, List.mem_cons]
      constructor
      · rintro ⟨h1, h2⟩; exact ⟨Or.inr h1, h2⟩
      · rintro ⟨h1 | h1, h2⟩
        · exact absurd (h1 ▸ hx) h2
        · exact ⟨h1, h2⟩
    · simp only [dedupFirstAux, if_neg hx, List.mem_cons, ih]
      constructor
      · rintro (rfl | ⟨h1, h2⟩)
        · exact ⟨Or.inl rfl, hx⟩
        · exact ⟨Or.inr h1, fun hs => h2 (Or.inr hs)⟩
      · rintro ⟨rfl | h1, h2⟩
        · exact Or.inl rfl
        · by_cases hax : a = x
          · exact Or.inl hax
          · exact Or.inr ⟨h1, fun hs => hs.elim hax h2⟩

theorem mem_dedupFirst [DecidableEq α] {a : α} {l : List α} :
    a ∈ dedupFirst l ↔ a ∈ l := by
  simp [dedupFirst, mem_dedupFirstAux]

theorem nodup_dedupFirstAux [DecidableEq α] :
    ∀ (seen l : List α), (dedupFirstAux seen l).Nodup := by
  intro seen l
  induction l generalizing seen with
  | nil => simp [dedupFirstAux]
  | cons x xs ih =>
    by_cases hx : x ∈ seen
    · simpa [dedupFirstAux, if_pos hx] using ih seen
    · simp only [dedupFirstAux, if_neg hx]
      refine List.Nodup.cons ?_ (ih (x :: seen))
      intro hmem
      exact (mem_dedupFirstAux.mp hmem).2 (List.mem_cons_self x seen)

theorem nodup_dedupFirst [DecidableEq α] (l : List α) : (dedupFirst l).Nodup :=
  nodup_dedupFirstAux [] l

theorem dedupFirst_perm_dedup [DecidableEq α] (l : List α) :
    List.Perm (dedupFirst l) l.dedup := by
  rw [List.perm_ext_iff_of_nodup (nodup_dedupFirst l) l.nodup_dedup]
  intro a
  rw [mem_dedupFirst, List.mem_dedup]

theorem filterMap_snd_tag (r : Row) (gs : List String) :
    (gs.map fun v => (r, some v)).filterMap Prod.snd = gs := by
  induction gs with
  | nil => rfl
  | cons g gs ih => simp [ih]

theorem expandRecord_snd (r : Row) :
    (expandRecord r).filterMap Prod.snd = r.genres := by
  unfold expandRecord
  by_cases h : r.genres.isEmpty
  · rw [if_pos h, List.isEmpty_iff.mp h]; rfl
  · rw [if_neg h]; exact filterMap_snd_tag r r.genres

theorem explode_values (df : List Row) :
    (explodeGenres df).filterMap Prod.snd = df.flatMap Row.genres := by
  induction df with
  | nil => rfl
  | cons r rs ih =>
    simp only [explodeGenres, List.flatMap_cons, List.filterMap_append] at *
    rw [ih, expandRecord_snd]

theorem expandRecord_length (r : Row) :
    (expandRecord r).length = max r.genres.length 1 := by
  unfold expandRecord
  by_cases h : r.genres.isEmpty
  · rw [if_pos h, List.isEmpty_iff.mp h]; rfl
  · rw [if_neg h, List.length_map]
    have : 0 < r.genres.length :=
      List.length_pos.mpr (fun hn => h (by rw [hn]; rfl))
    omega

theorem mem_groupRows {rows : List (Row × Option String)} {k : String} {r : Row} :
    r ∈ groupRows rows k ↔ (r, some k) ∈ rows := by
  unfold groupRows
  rw [List.mem_filterMap]
  constructor
  · rintro ⟨p, hp, hpe⟩
    by_cases h : p.2 = some k
    · rw [if_pos h] at hpe
      obtain rfl : p.1 = r := Option.some.inj hpe
      have : p = (p.1, some k) := by
        cases p; simp only at h ⊢; rw [h]
      rwa [this] at hp
    · rw [if_neg h] at hpe; exact absurd hpe (Option.noConfusion)
  · intro h
    exact ⟨(r, some k), h, by simp⟩

theorem sum_groupbySizeBy {K : Type} [DecidableEq K] (le : K → K → Prop)
    [DecidableRel le] (ks : List K) :
    ((groupbySizeBy le ks).map Prod.snd).sum = ks.length := by
  unfold groupbySizeBy
  have h1 : (((List.insertionSort le (dedupFirst ks)).map fun k => (k, ks.count k)).map
        Prod.snd)
      = ((List.insertionSort le (dedupFirst ks)).map fun k => ks.count k) := by
    rw [List.map_map]; rfl
  rw [h1]
  have hperm : List.Perm (List.insertionSort le (dedupFirst ks)) ks.dedup :=
    (List.perm_insertionSort le (dedupFirst ks)).trans (dedupFirst_perm_dedup ks)
  rw [List.Perm.sum_eq (List.Perm.map (fun k => ks.count k) hperm)]
  simpa using List.sum_map_count_dedup_eq_length ks

theorem length_filterMap_pair (rows : List (Row × Option String)) :
    (rows.filterMap fun p => p.2.map fun g => (decade p.1, g)).length
      = (rows.filterMap Prod.snd).length := by
  induction rows with
  | nil => rfl
  | cons p ps ih =>
    cases hp : p.2 with
    | none => simpa [List.filterMap_cons, hp] using ih
    | some g => simpa [List.filterMap_cons, hp] using ih

/-! ### Claims -/

/-- C8: with the fixed documented seed (42), the sub-sampling step is a pure
function of the input table: its output does not depend on the ambient
random-generator state, so repeated calls on identical input return the
identical sampled table. -/
theorem sampleStep_deterministic :
    ∀ (s1 s2 : Nat) (df : List Row), sampleStep s1 df = sampleStep s2 df :=
  fun _ _ _ => rfl

/-- C2 (counterexample): on a cell that is not a valid encoded list, the
normalizer does not return an empty sequence — it raises
(`ValueError: malformed node or string`) to its caller. -/
theorem parse_list_column_raises_cex :
    parse_list_column [Cell.str "oops"] = Except.error "malformed node or string" ∧
    ∀ out, parse_list_column [Cell.str "oops"] ≠ Except.ok out := by
  refine ⟨rfl, fun out h => ?_⟩
  rw [show parse_list_column [Cell.str "oops"]
      = Except.error "malformed node or string" from rfl] at h
  exact Except.noConfusion h

theorem parse_list_column_cons (c : Cell) (cs : List Cell) :
    parse_list_column (c :: cs)
      = match parseCell c, parse_list_column cs with
        | Except.error e, _ => Except.error e
        | Except.ok _, Except.error e => Except.error e
        | Except.ok v, Except.ok rest => Except.ok (v :: rest) := rfl

theorem parseCell_eq_ok_of_valid (c : Cell) (h : validCell c = true) :
    parseCell c = Except.ok (evalCell c) := by
  cases c with
  | na => rfl
  | str s =>
    simp only [validCell] at h
    cases hs : literal_eval s with
    | error e => rw [hs] at h; exact absurd h (by simp [Except.isOk, Except.toBool])
    | ok l => simp [parseCell, evalCell, hs]

theorem parseCell_eq_error_of_invalid (c : Cell) (h : validCell c = false) :
    ∃ e, parseCell c = Except.error e := by
  cases c with
  | na => exact absurd h (by simp [validCell])
  | str s =>
    simp only [validCell] at h
    cases hs : literal_eval s with
    | error e => exact ⟨e, by simp [parseCell, hs]⟩
    | ok l => rw [hs] at h; exact absurd h (by simp [Except.isOk, Except.toBool])

theorem parse_list_column_ok (col : List Cell)
    (h : ∀ c ∈ col, validCell c = true) :
    parse_list_column col = Except.ok (col.map evalCell) := by
  induction col with
  | nil => rfl
  | cons c cs ih =>
    have hc := parseCell_eq_ok_of_valid c (h c (List.mem_cons_self c cs))
    have hcs := ih fun d hd => h d (List.mem_cons_of_mem c hd)
    rw [parse_list_column_cons, hc, hcs]
    rfl

theorem parse_list_column_err (col : List Cell) (c : Cell)
    (hc : c ∈ col) (hbad : validCell c = false) :
    ∃ e, parse_list_column col = Except.error e := by
  induction col with
  | nil => exact absurd hc (List.not_mem_nil c)
  | cons a cs ih =>
    rw [parse_list_column_cons]
    cases ha : validCell a with
    | false =>
      obtain ⟨e, he⟩ := parseCell_eq_error_of_invalid a ha
      exact ⟨e, by rw [he]⟩
    | true =>
      have hcs : c ∈ cs := by
        rcases List.mem_cons.mp hc with rfl | h
        · exact absurd ha (by rw [hbad]; exact Bool.false_ne_true)
        · exact h
      obtain ⟨e, he⟩ := ih hcs
      rw [parseCell_eq_ok_of_valid a ha, he]
      exact ⟨e, rfl⟩

/-- C2 (amended): a non-string cell (missing value) normalizes to the empty
list and a column whose string cells all hold valid Python literals parses
cell-wise to those literal values — a list literal of strings becomes its
ordered sequence of strings, and other literals such as `123` or `[1, 2]`
are returned as parsed, not raised on; but a string cell the literal parser
rejects as malformed (such as `oops`) makes the normalizer raise to its
caller — the exception propagates out of the column apply instead of
becoming an empty sequence. -/
theorem parse_list_column_amended :
    ∀ col : List Cell,
      ((∀ c ∈ col, validCell c = true) →
        parse_list_column col = Except.ok (col.map evalCell)) ∧
      (∀ s e, Cell.str s ∈ col → literal_eval s = Except.error e →
        ∃ e2, parse_list_column col = Except.error e2) ∧
      evalCell Cell.na = PyLit.list [] ∧
      literal_eval "oops" = Except.error "malformed node or string" ∧
      literal_eval "123" = Except.ok (PyLit.int 123) ∧
      literal_eval "[1, 2]" = Except.ok (PyLit.list [PyLit.int 1, PyLit.int 2]) ∧
      literal_eval "[\"Drama\", \"Comedy\"]"
        = Except.ok (PyLit.list [PyLit.str "Drama", PyLit.str "Comedy"]) := by
  intro col
  refine ⟨parse_list_column_ok col, fun s e hs he => ?_, rfl, rfl, rfl, rfl, rfl⟩
  refine parse_list_column_err col (Cell.str s) hs ?_
  simp only [validCell, he, Except.isOk, Except.toBool]

/-- C2 (witness): a column with one valid encoded list and one missing cell
parses to the list's string values and the empty list. -/
theorem parse_list_column_amended_w :
    parse_list_column [Cell.str "[\"Drama\", \"Comedy\"]", Cell.na]
      = Except.ok [PyLit.list [PyLit.str "Drama", PyLit.str "Comedy"], PyLit.list []] := by
  have h := (parse_list_column_amended [Cell.str "[\"Drama\", \"Comedy\"]", Cell.na]).1
    (by decide)
  exact h

/-- C7: when the year-range pre-filter leaves zero rows, the analysis
returns the empty table together with a NaN correlation (`none`) — a plain
empty-result value; no operation on this path can fail. -/
theorem runtimeScoreAnalysis_empty (df : List Row) (lo hi : Int)
    (h : ∀ r ∈ df, r.release_year < lo ∨ hi < r.release_year) :
    runtimeScoreAnalysis df lo hi = ([], none) := by
  have hf : (df.filter fun r =>
      decide (lo ≤ r.release_year) && decide (r.release_year ≤ hi)) = [] := by
    rw [List.filter_eq_nil_iff]
    intro r hr
    rcases h r hr with h1 | h1 <;> simp <;> omega
  simp [runtimeScoreAnalysis, df_plot, hf, corrStats]

/-- C7 (witness): filtering 1900-1905 on data spanning 1990-2022 yields the
empty-result value. -/
theorem runtimeScoreAnalysis_empty_w :
    runtimeScoreAnalysis dfYears 1900 1905 = ([], none) :=
  runtimeScoreAnalysis_empty dfYears 1900 1905 (by decide)

/-- C1 (counterexample): the 3-record scenario input with genres
`[["Drama"], ["Drama", "Comedy"], []]` expands to 4 rows, not 3 — the
empty-list record contributes a row (with a missing genre) instead of zero
rows. -/
theorem expander_rows_cex :
    (explodeGenres exDf3).length = 4 ∧ (explodeGenres exDf3).length ≠ 3 := by
  decide

/-- C1 (amended): a record with N genre values expands to max(N, 1) rows —
exactly N when N ≥ 1, but one row carrying a missing value when the list is
empty; the value cells, in order, are exactly the concatenated genre lists,
so the scenario input yields 4 expanded rows whose genre counts are
Drama = 2, Comedy = 1. -/
theorem expander_rows_amended :
    (∀ df : List Row,
      (explodeGenres df).length = (df.map fun r => max r.genres.length 1).sum ∧
      (explodeGenres df).filterMap Prod.snd = df.flatMap Row.genres) ∧
    genre_counts exDf3 = [("Drama", 2), ("Comedy", 1)] ∧
    (explodeGenres exDf3).length = 4 := by
  refine ⟨fun df => ⟨?_, explode_values df⟩, by decide, by decide⟩
  unfold explodeGenres
  rw [List.length_flatMap]
  have hf : (List.length ∘ expandRecord) = fun r : Row => max r.genres.length 1 :=
    funext fun r => expandRecord_length r
  rw [hf]

/-- C6 (counterexample): a record with an empty genre list yields one
expanded row but contributes to no group, so the aggregator's counts sum to
0 while the expanded input has 1 row. -/
theorem aggregator_counts_cex :
    (explodeGenres dfEmptyG).length = 1 ∧
    ((genre_decade_sizes dfEmptyG).map Prod.snd).sum = 0 ∧
    ((genre_decade_sizes dfEmptyG).map Prod.snd).sum ≠ (explodeGenres dfEmptyG).length := by
  decide

/-- C6 (amended): the per-group counts sum to the number of expanded rows
whose exploded genre cell is present (equivalently, to the total number of
genre values over all records) — rows whose genre cell is missing (from
empty-list records) are dropped by the groupby and counted nowhere. -/
theorem aggregator_counts_amended :
    ∀ df : List Row,
      ((genre_decade_sizes df).map Prod.snd).sum
          = ((explodeGenres df).filterMap Prod.snd).length ∧
      ((explodeGenres df).filterMap Prod.snd).length
          = (df.map fun r => r.genres.length).sum := by
  intro df
  constructor
  · unfold genre_decade_sizes
    rw [sum_groupbySizeBy, length_filterMap_pair]
  · rw [explode_values, List.length_flatMap]
    rfl

theorem mem_groupbySum_self (rows : List (Row × Option String)) (f : Row → Option ℚ)
    {g : String} (hg : g ∈ groupKeys rows) :
    (g, ((groupRows rows g).filterMap f).sum) ∈ groupbySum rows f :=
  List.mem_map_of_mem (fun k => (k, ((groupRows rows k).filterMap f).sum)) hg

theorem mem_groupbyMean_self (rows : List (Row × Option String)) (f : Row → Option ℚ)
    {g : String} (hg : g ∈ groupKeys rows) :
    (g, if ((groupRows rows g).filterMap f).length = 0 then none
        else some (((groupRows rows g).filterMap f).sum
          / (((groupRows rows g).filterMap f).length : ℚ)))
      ∈ groupbyMean rows f :=
  List.mem_map_of_mem
    (fun k => ((k, if ((groupRows rows k).filterMap f).length = 0 then none
      else some (((groupRows rows k).filterMap f).sum
        / (((groupRows rows k).filterMap f).length : ℚ))))) hg

theorem genre_counts_keys_sub (df : List Row) {k : String}
    (hk : k ∈ (genre_counts df).map Prod.fst) : ∃ r ∈ df, k ∈ r.genres := by
  rcases List.mem_map.mp hk with ⟨p, hp, rfl⟩
  unfold genre_counts sortValuesDesc at hp
  rw [List.mem_reverse, List.mem_insertionSort] at hp
  unfold groupbySizeBy at hp
  rcases List.mem_map.mp hp with ⟨k2, hk2, rfl⟩
  rw [List.mem_insertionSort, mem_dedupFirst, explode_values] at hk2
  rcases List.mem_flatMap.mp hk2 with ⟨r, hr, hkr⟩
  exact ⟨r, hr, hkr⟩

/-- C9: every group key of the genre aggregation is a genre value of some
record; a record with an empty genre list never contributes a group of its
own, even though its expanded form is present (with a missing value in the
exploded column). -/
theorem groups_from_values :
    ∀ df : List Row,
      (∀ k ∈ (genre_counts df).map Prod.fst, ∃ r ∈ df, k ∈ r.genres) ∧
      (∀ r ∈ df, r.genres = [] → (r, (none : Option String)) ∈ explodeGenres df) := by
  intro df
  refine ⟨fun k hk => genre_counts_keys_sub df hk, fun r hr hg => ?_⟩
  unfold explodeGenres
  rw [List.mem_flatMap]
  exact ⟨r, hr, by simp [expandRecord, hg]⟩

/-- C9 (witness): on a concrete table, the key "Drama" comes from a record,
and the empty-genre record is present in the expanded rows with a missing
value. -/
theorem groups_from_values_w :
    (∃ r ∈ dfMixed, "Drama" ∈ r.genres) ∧
    (mkRow "e" 2001 [], (none : Option String)) ∈ explodeGenres dfMixed := by
  constructor
  · exact (groups_from_values dfMixed).1 "Drama" (by decide)
  · exact (groups_from_values dfMixed).2 (mkRow "e" 2001 []) (by decide) rfl

/-- C10: for the sum metric, a group whose rows all miss the target numeric
field still appears in the aggregation with a sum of 0, while the mean
metric carries that group with an undefined (NaN) value. -/
theorem sum_zero_vs_mean_missing :
    ∀ (df : List Row) (g : String),
      g ∈ groupKeys (explodeGenres df) →
      (∀ p ∈ explodeGenres df, p.2 = some g → p.1.imdb_votes = none) →
      (g, (0 : ℚ)) ∈ groupbySum (explodeGenres df) Row.imdb_votes ∧
      (g, (none : Option ℚ)) ∈ groupbyMean (explodeGenres df) Row.imdb_votes := by
  intro df g hg hmiss
  have hnil : (groupRows (explodeGenres df) g).filterMap Row.imdb_votes = [] := by
    rw [List.filterMap_eq_nil_iff]
    intro r hr
    exact hmiss (r, some g) (mem_groupRows.mp hr) rfl
  constructor
  · have h := mem_groupbySum_self (explodeGenres df) Row.imdb_votes hg
    rw [hnil] at h
    simpa using h
  · have h := mem_groupbyMean_self (explodeGenres df) Row.imdb_votes hg
    rw [hnil] at h
    simpa using h

/-- C10 (witness): one genre with no votes data — sum aggregation reports 0,
mean aggregation reports NaN. -/
theorem sum_zero_vs_mean_missing_w :
    ("G", (0 : ℚ)) ∈ groupbySum (explodeGenres dfNoVotes) Row.imdb_votes ∧
    ("G", (none : Option ℚ)) ∈ groupbyMean (explodeGenres dfNoVotes) Row.imdb_votes :=
  sum_zero_vs_mean_missing dfNoVotes "G" (by decide) (by decide)

/-- C5 (counterexample): a group with zero eligible rows (every row missing
the score) is not excluded: it appears in the mean analysis output with a
missing (NaN) value. -/
theorem mean_empty_group_cex :
    ("B", (none : Option ℚ)) ∈ genre_imdb dfMeanNa ∧
    (∀ p ∈ explodeGenres dfMeanNa, p.2 = some "B" → p.1.imdb_score = none) := by
  decide

/-- C5 (amended): mean ignores rows whose target field is missing (the
denominator is the number of eligible rows only), and a group with zero
eligible rows is kept in the aggregation with an undefined (NaN) mean — it
is never reported as zero, or as any number. -/
theorem mean_null_safe_amended :
    ∀ (df : List Row) (g : String),
      g ∈ groupKeys (explodeGenres df) →
      (eligibleVals df g Row.imdb_score = [] →
        (g, (none : Option ℚ)) ∈ groupbyMean (explodeGenres df) Row.imdb_score ∧
        ∀ q : ℚ, (g, some q) ∉ groupbyMean (explodeGenres df) Row.imdb_score) ∧
      (eligibleVals df g Row.imdb_score ≠ [] →
        (g, some ((eligibleVals df g Row.imdb_score).sum
            / ((eligibleVals df g Row.imdb_score).length : ℚ)))
          ∈ groupbyMean (explodeGenres df) Row.imdb_score) := by
  intro df g hg
  have hmem := mem_groupbyMean_self (explodeGenres df) Row.imdb_score hg
  constructor
  · intro hnil
    unfold eligibleVals at hnil
    constructor
    · rw [hnil] at hmem
      simpa using hmem
    · intro q hq
      rcases List.mem_map.mp hq with ⟨k, hk, heq⟩
      have hkg : k = g := congrArg Prod.fst heq
      subst hkg
      have hval := congrArg Prod.snd heq
      simp only at hval
      rw [hnil] at hval
      simp at hval
  · intro hne
    unfold eligibleVals at hne ⊢
    have hlen : ((groupRows (explodeGenres df) g).filterMap Row.imdb_score).length ≠ 0 :=
      fun h0 => hne (List.length_eq_zero.mp h0)
    rw [if_neg hlen] at hmem
    exact hmem

/-- C5 (witness): a 5-row group with 2 missing scores — the mean is computed
over exactly the 3 present values. -/
theorem mean_null_safe_amended_w :
    eligibleVals dfMean5 "G" Row.imdb_score = [(2 : ℚ), 3, 4] ∧
    ("G", some (([(2 : ℚ), 3, 4]).sum / 3))
      ∈ groupbyMean (explodeGenres dfMean5) Row.imdb_score ∧
    (([(2 : ℚ), 3, 4]).sum / 3 = 3) := by
  have helig : eligibleVals dfMean5 "G" Row.imdb_score = [(2 : ℚ), 3, 4] := by decide
  have hne : eligibleVals dfMean5 "G" Row.imdb_score ≠ [] := by
    rw [helig]; intro h; exact List.noConfusion h
  have h := (mean_null_safe_amended dfMean5 "G" (by decide)).2 hne
  rw [helig] at h
  have hlen : (([(2 : ℚ), 3, 4]).length : ℚ) = 3 := by norm_num
  rw [hlen] at h
  exact ⟨helig, h, by norm_num⟩

theorem find_eq_some_of_unique {α : Type} {p : α → Bool} {l : List α} {x : α}
    (hx : x ∈ l) (hpx : p x = true) (huniq : ∀ y ∈ l, p y = true → y = x) :
    l.find? p = some x := by
  induction l with
  | nil => exact absurd hx (List.not_mem_nil x)
  | cons a t ih =>
    cases hp : p a with
    | true =>
      rw [List.find?_cons_of_pos _ hp]
      rw [huniq a (List.mem_cons_self a t) hp]
    | false =>
      rw [List.find?_cons_of_neg _ (by simp [hp])]
      have hxt : x ∈ t := by
        rcases List.mem_cons.mp hx with rfl | h
        · rw [hp] at hpx; exact absurd hpx (by simp)
        · exact h
      exact ih hxt fun y hy hpy => huniq y (List.mem_cons_of_mem a hy) hpy

theorem mem_enum_elim {α : Type} {l : List α} {pr : Nat × α} (h : pr ∈ l.enum) :
    ∃ hj : pr.1 < l.length, pr.2 = l.get ⟨pr.1, hj⟩ := by
  rcases List.mem_iff_getElem.mp h with ⟨i, hi, hpe⟩
  have hi2 : i < l.length := by
    rw [List.enum_length] at hi; exact hi
  rw [List.getElem_enum] at hpe
  subst hpe
  exact ⟨hi2, by simp⟩

theorem mem_zip_elim {α β : Type} {l1 : List α} {l2 : List β} {pr : α × β}
    (h : pr ∈ l1.zip l2) :
    ∃ (i : Nat) (h1 : i < l1.length) (h2 : i < l2.length),
      pr.1 = l1.get ⟨i, h1⟩ ∧ pr.2 = l2.get ⟨i, h2⟩ := by
  rcases List.mem_iff_getElem.mp h with ⟨i, hi, hpe⟩
  rw [List.length_zip] at hi
  have h1 : i < l1.length := lt_of_lt_of_le hi (min_le_left _ _)
  have h2 : i < l2.length := lt_of_lt_of_le hi (min_le_right _ _)
  rw [List.getElem_zip] at hpe
  subst hpe
  exact ⟨i, h1, h2, by simp, by simp⟩

theorem melt_mem (w : Wide) (hlen : w.cells.length = w.rowKeys.length)
    (i j : Nat) (hi : i < w.rowKeys.length) (hj : j < w.colKeys.length) :
    (w.rowKeys.getD i "", w.colKeys.getD j "", (w.cells.getD i []).getD j 0) ∈ melt w := by
  unfold melt
  rw [List.mem_flatMap]
  refine ⟨(j, w.colKeys.getD j ""), ?_, ?_⟩
  · rw [List.mem_iff_getElem]
    refine ⟨j, by rw [List.enum_length]; exact hj, ?_⟩
    rw [List.getElem_enum]
    rw [List.getD_eq_getElem _ _ hj]
  · unfold meltCol
    rw [List.mem_map]
    refine ⟨(w.rowKeys.getD i "", w.cells.getD i []), ?_, rfl⟩
    rw [List.mem_iff_getElem]
    have hic : i < w.cells.length := by omega
    refine ⟨i, by rw [List.length_zip]; exact lt_min hi hic, ?_⟩
    rw [List.getElem_zip]
    rw [List.getD_eq_getElem _ _ hi, List.getD_eq_getElem _ _ hic]

theorem melt_mem_elim (w : Wide) (hr : w.rowKeys.Nodup) (hc : w.colKeys.Nodup)
    (hlen : w.cells.length = w.rowKeys.length)
    {y : String × String × ℚ} (hy : y ∈ melt w)
    (i j : Nat) (hi : i < w.rowKeys.length) (hj : j < w.colKeys.length)
    (h1 : y.1 = w.rowKeys.getD i "") (h2 : y.2.1 = w.colKeys.getD j "") :
    y = (w.rowKeys.getD i "", w.colKeys.getD j "", (w.cells.getD i []).getD j 0) := by
  unfold melt at hy
  rcases List.mem_flatMap.mp hy with ⟨jc, hjc, hyc⟩
  obtain ⟨hj2, hcj⟩ := mem_enum_elim hjc
  unfold meltCol at hyc
  rcases List.mem_map.mp hyc with ⟨grow, hgrow, hyeq⟩
  obtain ⟨i2, hi1, hi2c, hg1, hg2⟩ := mem_zip_elim hgrow
  subst hyeq
  simp only at h1 h2
  have hjj : jc.1 = j := by
    rw [hcj, List.getD_eq_getElem _ _ hj] at h2
    have := (List.Nodup.getElem_inj_iff hc).mp (by simpa using h2)
    exact this
  have hii : i2 = i := by
    rw [hg1, List.getD_eq_getElem _ _ hi] at h1
    have := (List.Nodup.getElem_inj_iff hr).mp (by simpa using h1)
    exact this
  have hic : i < w.cells.length := by omega
  subst hii
  refine Prod.ext ?_ (Prod.ext ?_ ?_)
  · simpa using h1
  · simpa using h2
  · simp only
    rw [hg2, hjj]
    rw [List.getD_eq_getElem _ _ hic]
    simp

theorem findCell_melt (w : Wide) (hr : w.rowKeys.Nodup) (hc : w.colKeys.Nodup)
    (hlen : w.cells.length = w.rowKeys.length)
    (i j : Nat) (hi : i < w.rowKeys.length) (hj : j < w.colKeys.length) :
    findCell (melt w) (w.rowKeys.getD i "") (w.colKeys.getD j "")
      = some ((w.cells.getD i []).getD j 0) := by
  unfold findCell
  rw [find_eq_some_of_unique (melt_mem w hlen i j hi hj) (by simp)
    fun y hy hpy => ?_]
  · rfl
  · have hy1 : y.1 = w.rowKeys.getD i "" := by
      have := (Bool.and_eq_true _ _).mp hpy
      exact beq_iff_eq.mp this.1
    have hy2 : y.2.1 = w.colKeys.getD j "" := by
      have := (Bool.and_eq_true _ _).mp hpy
      exact beq_iff_eq.mp this.2
    exact melt_mem_elim w hr hc hlen hy i j hi hj hy1 hy2

theorem unstack_melt_roundtrip (w : Wide) (hr : w.rowKeys.Nodup) (hc : w.colKeys.Nodup)
    (hlen : w.cells.length = w.rowKeys.length)
    (hrow : ∀ row ∈ w.cells, row.length = w.colKeys.length) :
    unstackLoc (melt w) w.rowKeys w.colKeys = w := by
  unfold unstackLoc
  obtain ⟨rows, cols, cells⟩ := w
  simp only [Wide.mk.injEq, true_and]
  simp only at hlen hrow
  apply List.ext_getElem
  · rw [List.length_map]; omega
  · intro n h1 h2
    rw [List.getElem_map]
    have hn : n < rows.length := by rw [List.length_map] at h1; exact h1
    apply List.ext_getElem
    · rw [List.length_map]
      exact (hrow _ (List.getElem_mem h2)).symm
    · intro m hm1 hm2
      rw [List.getElem_map]
      have hm : m < cols.length := by rw [List.length_map] at hm1; exact hm1
      have hkey := findCell_melt ⟨rows, cols, cells⟩ hr hc hlen n m hn hm
      simp only at hkey
      rw [List.getD_eq_getElem _ _ hn, List.getD_eq_getElem _ _ hm,
        List.getD_eq_getElem _ _ h2] at hkey
      rw [hkey]
      simp only [Option.getD_some]
      rw [List.getD_eq_getElem _ _ hm2]

/-- C4: pivoting a two-dimensional aggregation wide over nonduplicated
allow-lists, melting it to long form, and pivoting wide again over the same
allow-lists returns the original wide table exactly; cells absent from the
aggregation were materialized as 0 by the first pivot and survive the round
trip unchanged. -/
theorem pivot_melt_pivot_roundtrip :
    ∀ (agg : List (String × String × ℚ)) (rows cols : List String),
      rows.Nodup → cols.Nodup →
      unstackLoc (melt (pivotTable agg rows cols)) rows cols
        = pivotTable agg rows cols := by
  intro agg rows cols hr hc
  have h := unstack_melt_roundtrip (pivotTable agg rows cols) hr hc
    (by simp [pivotTable, unstackLoc])
    (by
      intro row hrow
      simp only [pivotTable, unstackLoc] at hrow
      rcases List.mem_map.mp hrow with ⟨g, hg, rfl⟩
      simp [pivotTable, unstackLoc])
  exact h

/-- C4 (witness): a 2x2 pivot built from a one-cell aggregation (the three
other cells materialize as 0) survives the round trip. -/
theorem pivot_melt_pivot_roundtrip_w :
    unstackLoc (melt (pivotTable [("g1", "c1", 5)] ["g1", "g2"] ["c1", "c2"]))
        ["g1", "g2"] ["c1", "c2"]
      = pivotTable [("g1", "c1", 5)] ["g1", "g2"] ["c1", "c2"] :=
  pivot_melt_pivot_roundtrip [("g1", "c1", 5)] ["g1", "g2"] ["c1", "c2"]
    (by decide) (by decide)

end FilmAnalysis
